import Mathlib

/-!
Verification of the `dirscan` repository (`src/scan/cli.py`) against its
natural-language specification.

The filesystem is modelled as a rose tree (`FSTree` / `FSForest`): a directory
has a name, a list of regular files (name, size, content) and a list of
subdirectories.  `os.walk` with in-place pruning of `IGNORE_DIRS`
(`dirs[:] = [d for d in dirs if d not in IGNORE_DIRS]`) is modelled by
`walkTree` / `walkForest`, which yield the visited directories in preorder
together with their relative path from the scan root (the root itself has
relative path `[]`, matching the fact that `os.walk` always yields the root
first and never name-checks it).
-/

namespace DirScan

/-- A regular file: its name, its `stat().st_size`, and its text content. -/
structure FileE where
  name : String
  size : Nat
  content : String
deriving DecidableEq, Repr

mutual
inductive FSTree : Type where
  | node : String → List FileE → FSForest → FSTree
inductive FSForest : Type where
  | nil : FSForest
  | cons : FSTree → FSForest → FSForest
end

/-- Base name of a directory node. -/
def FSTree.name : FSTree → String
  | .node n _ _ => n

/-- Regular files directly contained in a directory node. -/
def FSTree.files : FSTree → List FileE
  | .node _ fs _ => fs

/-- Immediate subdirectories of a directory node. -/
def FSTree.subdirs : FSTree → FSForest
  | .node _ _ subs => subs

/-- Immediate subdirectories of a forest, as a plain list. -/
def FSForest.toList : FSForest → List FSTree
  | .nil => []
  | .cons d rest => d :: rest.toList

/-- The set `IGNORE_DIRS` from `cli.py` line 8. -/
def IGNORE_DIRS : List String :=
  [".git", ".venv", "venv", "__pycache__", "build", "dist",
   ".egg-info", ".mypy_cache", ".pytest_cache"]

/-- The set `SOURCE_EXTS` from `cli.py` line 13 (the ExtensionAllowList). -/
def SOURCE_EXTS : List String :=
  [".py", ".js", ".ts", ".html", ".css", ".md",
   ".json", ".yml", ".yaml", ".toml", ".ini", ".sh"]

/-- The set `BINARY_EXTS` from `cli.py` line 18 (the ExtensionDenyList). -/
def BINARY_EXTS : List String := [".zip", ".tar", ".gz", ".whl", ".apk", ".exe", ".bin"]

/-! ### String helpers modelling the Python library functions used by `cli.py` -/

/-- Index of the last `'.'` in a character list (`str.rfind('.')`), or `none`. -/
def lastDotAux : List Char → Nat → Option Nat → Option Nat
  | [], _, acc => acc
  | c :: rest, i, acc => lastDotAux rest (i + 1) (if c = '.' then some i else acc)

/-- Python `pathlib.PurePath(name).suffix` for a bare file name: the substring from the
last dot on, unless that dot is the first or last character (`.bashrc` and
`name.` have no suffix). -/
def pySuffix (s : String) : String :=
  let cs := s.data
  match lastDotAux cs 0 none with
  | none => ""
  | some i => if 0 < i ∧ i < cs.length - 1 then ⟨cs.drop i⟩ else ""

/-- Python `str.lower` on one character: the ASCII case mapping (the case mapping on
non-ASCII characters is not modelled; it cannot affect membership in the
all-ASCII extension sets, nor emptiness). -/
def lowerChar (c : Char) : Char :=
  if 'A' ≤ c ∧ c ≤ 'Z' then Char.ofNat (c.toNat + 32) else c

/-- Python `str.lower`. -/
def strLower (s : String) : String := ⟨s.data.map lowerChar⟩

/-- The key `Path(f).suffix.lower()`, the extension key used for classification and
collection. -/
def sufLower (s : String) : String := strLower (pySuffix s)

/-- Python `os.path.basename`: everything after the last `'/'`. -/
def basename (s : String) : String :=
  ⟨(s.data.reverse.takeWhile (fun c => c ≠ '/')).reverse⟩

/-- The base path string `os.walk` reports for a directory at relative
component path `rel` under `root` (repeated `os.path.join`). -/
def pathStr (root : String) (rel : List String) : String :=
  rel.foldl (fun a c => a ++ "/" ++ c) root

/-- Python `str.replace` on character lists: replace all non-overlapping
occurrences of `pat`, scanning left to right.  `fuel` bounds the recursion;
callers pass the length of the subject list, which suffices because every
step consumes at least one character (the empty-pattern case, which Python
treats specially, never arises here: the pattern is always a non-empty
absolute path). -/
def replaceFuel : Nat → List Char → List Char → List Char → List Char
  | 0, cs, _, _ => cs
  | _ + 1, [], _, _ => []
  | f + 1, c :: rest, pat, rep =>
      if pat ≠ [] ∧ pat.isPrefixOf (c :: rest) then
        rep ++ replaceFuel f ((c :: rest).drop pat.length) pat rep
      else
        c :: replaceFuel f rest pat rep

/-- Python `str.replace` (all occurrences), as used in
`base.replace(root, "")` on line 31. -/
def pyReplace (s pat rep : String) : String :=
  ⟨replaceFuel s.data.length s.data pat.data rep.data⟩

/-- Python `str.count(os.sep)`: number of `'/'` characters. -/
def countSep (s : String) : Nat := s.data.count '/'

/-- The indent `"  " * level`. -/
def indentStr (level : Nat) : String := ⟨List.replicate (2 * level) ' '⟩

/-! ### The pruned walk shared by `build_tree`, `analyze_repo`, `collect_files` -/

mutual
/-- Model of `os.walk(root)` with the in-place `IGNORE_DIRS` pruning used by
`build_tree`, `analyze_repo` and `collect_files` (lines 30, 42, 78): preorder
list of visited directories, each paired with its path relative to the root
(as a component list; the root is `[]`).  The root is always yielded and is
never name-checked. -/
def walkTree (rel : List String) : FSTree → List (List String × FSTree)
  | .node n fs subs => (rel, .node n fs subs) :: walkForest rel subs
/-- Children part of `walkTree`: a child whose base name is in `IGNORE_DIRS`
is dropped together with its whole subtree. -/
def walkForest (rel : List String) : FSForest → List (List String × FSTree)
  | .nil => []
  | .cons d rest =>
      (if d.name ∈ IGNORE_DIRS then [] else walkTree (rel ++ [d.name]) d)
        ++ walkForest rel rest
end

/-! ### `human_size` (lines 20-25)

The Python function starts from an integer byte count, repeatedly divides a
float by 1024, and prints with `f"{n:.1f}"`.  Division by 1024 is exact in
IEEE double precision for every byte count met here, so after `k` loop steps
the float holds exactly `n / 1024 ^ k`.  The model carries this exact value
as the pair `⟨n, k⟩` (`QVal`); `%.1f` rounds the value half-to-even, modelled
by `fmt1` with integer arithmetic on the exact numerator and denominator. -/

/-- The exact value `num / 1024 ^ shift` held by the float inside
`human_size`. -/
structure QVal where
  num : Nat
  shift : Nat
deriving DecidableEq, Repr

/-- The comparison `n < 1024` on the exact value. -/
def QVal.lt1024 (v : QVal) : Bool := v.num < 1024 ^ (v.shift + 1)

/-- The step `n /= 1024` on the exact value. -/
def QVal.div1024 (v : QVal) : QVal := ⟨v.num, v.shift + 1⟩

/-- Formatting `f"{n:.1f}"` on the exact non-negative value `num / 1024 ^ shift`: scale
by 10, round half-to-even, print integer part, dot, one digit. -/
def fmt1 (v : QVal) : String :=
  let den := 1024 ^ v.shift
  let t := 10 * v.num
  let f := t / den
  let r2 := 2 * (t % den)
  let n := if r2 < den then f else if den < r2 then f + 1
           else if f % 2 = 0 then f else f + 1
  toString (n / 10) ++ "." ++ toString (n % 10)

/-- The unit loop of `human_size` (lines 21-24): for each unit, return if the
value is below 1024, else divide by 1024; after the loop the unit is
`"TB"` (line 25). -/
def humanGo (v : QVal) : List String → String
  | [] => fmt1 v ++ " TB"
  | u :: rest => if v.lt1024 then fmt1 v ++ " " ++ u else humanGo v.div1024 rest

/-- Function `human_size` from `cli.py` line 20, on an integer byte count. -/
def human_size (n : Nat) : String := humanGo ⟨n, 0⟩ ["B", "KB", "MB", "GB"]

/-! ### `build_tree` (lines 27-36) -/

/-- The lines accumulated by `build_tree`: for each visited directory one
header line (indent, `basename or base`, `/`) and one line per contained file
(indent plus two extra spaces).  `level` is computed exactly as in the source:
`base.replace(root, "").count(os.sep)`. -/
def buildTreeLines (root : String) (t : FSTree) : List String :=
  (walkTree [] t).flatMap (fun pr =>
    let base := pathStr root pr.1
    let level := countSep (pyReplace base root "")
    let indent := indentStr level
    (indent ++ (if basename base = "" then base else basename base) ++ "/")
      :: pr.2.files.map (fun fe => indent ++ "  " ++ fe.name))

/-- Function `build_tree`: the joined tree listing. -/
def build_tree (root : String) (t : FSTree) : String :=
  String.intercalate "\n" (buildTreeLines root t)

/-! ### `analyze_repo` (lines 38-47) -/

/-- The update `counter[ext] += 1` on a `Counter` modelled as an insertion-ordered
association list: a missing key is appended with count 1. -/
def bump : List (String × Nat) → String → List (String × Nat)
  | [], k => [(k, 1)]
  | (k', v) :: rest, k =>
      if k' = k then (k', v + 1) :: rest else (k', v) :: bump rest k

/-- The key `Path(f).suffix.lower() or "noext"` (line 44). -/
def extOf (f : String) : String :=
  let e := sufLower f
  if e = "" then "noext" else e

/-- The loop body of lines 44-46: tally one file's extension and bump the
total. -/
def tallyStep (a : List (String × Nat) × Nat) (fe : FileE) :
    List (String × Nat) × Nat :=
  (bump a.1 (extOf fe.name), a.2 + 1)

/-- Function `analyze_repo`: walk with pruning, tally every file's extension and count
every file.  Returns `(counter, total)`. -/
def analyze_repo (t : FSTree) : List (String × Nat) × Nat :=
  (walkTree [] t).foldl (fun acc pr => pr.2.files.foldl tallyStep acc) ([], 0)

/-- Lookup `counter.get(k, 0)`. -/
def cget (c : List (String × Nat)) (k : String) : Nat :=
  ((c.find? (fun kv => kv.1 = k)).map (fun kv => kv.2)).getD 0

/-- Function `infer_identity` (lines 49-54). -/
def infer_identity (c : List (String × Nat)) : String :=
  if 0 < cget c ".py" then "Python Package"
  else if 5 < cget c ".html" + cget c ".css" then "Web Project"
  else "Source Code Repository"

/-! ### `diagnose_repo` (lines 56-73) -/

/-- One entry yielded by `Path(root).rglob("*")`: its full path components
(root parts included, file or directory name last), whether it is a regular
file, and its `stat().st_size` (0 for directories, whose size is never
read). -/
structure FSEntry where
  parts : List String
  isFile : Bool
  size : Nat
deriving DecidableEq, Repr

mutual
/-- Model of `Path(root).rglob("*")` run from a directory whose full path components
are `pre`: every file and every directory strictly below it, with NO
`IGNORE_DIRS` pruning. -/
def rglobT (pre : List String) : FSTree → List FSEntry
  | .node _ fs subs =>
      fs.map (fun fe => ⟨pre ++ [fe.name], true, fe.size⟩) ++ rglobF pre subs
/-- Forest part of `rglobT`: each subdirectory contributes its own entry and
then its contents. -/
def rglobF (pre : List String) : FSForest → List FSEntry
  | .nil => []
  | .cons d rest =>
      ⟨pre ++ [d.name], false, 0⟩ :: (rglobT (pre ++ [d.name]) d ++ rglobF pre rest)
end

/-- The size sum on lines 67-71: over all `rglob` entries, keep regular files
whose full path parts do not contain `".git"`, and sum their sizes. -/
def diag_size (rootParts : List String) (t : FSTree) : Nat :=
  ((rglobT rootParts t).filter
      (fun e => e.isFile && decide (".git" ∉ e.parts))).foldl
    (fun a e => a + e.size) 0

/-- The test `(Path(root) / name).exists()`: a file or directory called `name` directly
under the root. -/
def topExists (t : FSTree) (nm : String) : Bool :=
  t.files.any (fun fe => fe.name = nm) || t.subdirs.toList.any (fun d => d.name = nm)

/-- Function `diagnose_repo` (lines 56-73): git check, noise warnings, size line,
joined with newlines.  `rootParts` are the path components of the absolute
root (as in `Path.parts`), needed because line 70 tests `".git" not in
f.parts` on the full path. -/
def diagnose_repo (rootParts : List String) (t : FSTree) : String :=
  let first :=
    if topExists t ".git" then "✔ Git repository detected"
    else "✖ Not a git repository"
  let noise :=
    (["build", "dist", ".venv", ".git"].filter (fun d => topExists t d)).map
      (fun d => "⚠ Noise: " ++ d)
  let sizeLine := "Repo size: " ++ human_size (diag_size rootParts t)
  String.intercalate "\n" ((first :: noise) ++ [sizeLine])

/-! ### `collect_files` (lines 75-86) -/

/-- A collected file: directory path relative to the root, file name, and the
content later read by the artifact writer.  The path recorded by the source
(`Path(base) / f`) is `dir ++ [fname]`. -/
structure CollectedFile where
  dir : List String
  fname : String
  content : String
deriving DecidableEq, Repr

/-- The loop body of lines 79-85: skip deny-listed extensions
unconditionally (`continue` on line 82); in standard mode additionally skip
extensions outside the allow-list (line 84); otherwise record the path. -/
def collectStep (raw : Bool) (rel : List String) (fe : FileE) :
    Option CollectedFile :=
  if sufLower fe.name ∈ BINARY_EXTS then none
  else if raw = false ∧ sufLower fe.name ∉ SOURCE_EXTS then none
  else some ⟨rel, fe.name, fe.content⟩

/-- Function `collect_files`: pruned walk, applying `collectStep` to every file. -/
def collect_files (t : FSTree) (raw : Bool) : List CollectedFile :=
  (walkTree [] t).flatMap (fun pr => pr.2.files.filterMap (collectStep raw pr.1))

/-! ### `write_artifact` (lines 88-124) and `main` (lines 126-170) -/

/-- Filename construction of lines 92-97: start from `"scan"`, append
`"-raw"` when raw, append `"-<tag>"` when `if idtag:` is truthy (a `None` or
empty tag appends nothing), finish with `"-<repo>.txt"`. -/
def artifactName (raw : Bool) (idtag : Option String) (repo : String) : String :=
  let n1 := "scan"
  let n2 := if raw then n1 ++ "-raw" else n1
  let n3 :=
    match idtag with
    | some tg => if tg = "" then n2 else n2 ++ "-" ++ tg
    | none => n2
  n3 ++ "-" ++ repo ++ ".txt"

/-- The output path `Path.home() / "storage" / "downloads" / "Scan" / repo /
name` (lines 89, 99). -/
def artifactPath (home repo : String) (raw : Bool) (idtag : Option String) : String :=
  home ++ "/storage/downloads/Scan/" ++ repo ++ "/" ++ artifactName raw idtag repo

/-- The marker path `f.relative_to(root)` rendered as a string (the collected paths are kept
relative to the root in the model). -/
def relPathStr (c : CollectedFile) : String :=
  String.intercalate "/" (c.dir ++ [c.fname])

/-- The successive strings passed to `o.write` in lines 101-122, in order.
The file content is read permissively; the model stores the text that
`read_text` returns. -/
def artifactChunks (repo : String) (raw : Bool)
    (now tree summary diagnose : String) (files : List CollectedFile) :
    List String :=
  ["========================================\n",
   "ARTIFACT: " ++ repo ++ "\n",
   "MODE: " ++ (if raw then "raw" else "standard") ++ "\n",
   "GENERATED: " ++ now ++ "\n",
   "========================================\n\n",
   "TREE\n-----\n",
   tree ++ "\n\n",
   "SUMMARY\n-------\n",
   summary ++ "\n\n",
   "DIAGNOSE\n--------\n",
   diagnose ++ "\n\n",
   "CONTEXT (SOURCE)\n----------------\n"]
  ++ files.flatMap (fun f => ["\n=== " ++ relPathStr f ++ " ===\n", f.content])

/-- Concatenation of successive writes (the file content produced when every
write succeeds). -/
def concatAll : List String → String
  | [] => ""
  | s :: rest => s ++ concatAll rest

/-- An observable effect of a run: a line printed to standard output, or a
file written at a path with some content. -/
inductive Event where
  | stdout : String → Event
  | fileWrite : String → String → Event
deriving DecidableEq, Repr

/-- Whether an event is a file write. -/
def Event.isWrite : Event → Bool
  | .stdout _ => false
  | .fileWrite _ _ => true

/-- Function `write_artifact` as its observable effects: one file written at the
computed output path with the full composed content, then the confirmation
line of line 124. -/
def write_artifact (home repo tree summary diagnose : String)
    (files : List CollectedFile) (raw : Bool) (idtag : Option String)
    (now : String) : List Event :=
  let out := artifactPath home repo raw idtag
  [Event.fileWrite out
     (concatAll (artifactChunks repo raw now tree summary diagnose files)),
   Event.stdout ("[OK] Artifact created: " ++ out)]

/-- The value of the `-i` option after `argparse` (line 129,
`nargs="?", const=True`): absent (`None`), bare flag (`True`), or a string
value. -/
inductive IOpt where
  | absent
  | flag
  | tag : String → IOpt
deriving DecidableEq, Repr

/-- Python truthiness of `args.i` as tested on line 161 (`if not args.i`):
`None` and the empty string are falsy. -/
def iTruthy : IOpt → Bool
  | .absent => false
  | .flag => true
  | .tag s => if s = "" then false else true

/-- Stable insertion keeping counts in descending order (ties keep the
element already placed first). -/
def insertDesc (x : String × Nat) : List (String × Nat) → List (String × Nat)
  | [] => [x]
  | y :: ys => if y.2 < x.2 then x :: y :: ys else y :: insertDesc x ys

/-- Model of `Counter.most_common()`: entries sorted by descending count, ties in
insertion order. -/
def mostCommon (c : List (String × Nat)) : List (String × Nat) :=
  c.foldl (fun acc x => insertDesc x acc) []

/-- Formatting `f"{k:8}"`: left-justify to width 8. -/
def pad8 (s : String) : String :=
  if s.length < 8 then s ++ ⟨List.replicate (8 - s.length) ' '⟩ else s

/-- One line of the Language Composition block (line 148).  The percentage
`int(v / total * 100)` is modelled by exact floor division; the float detour
of the source can differ from the exact value by at most one unit at a
representation boundary, which no claim depends on (and which never divides
when `total = 0`, the property claimed). -/
def pctLine (total : Nat) (kv : String × Nat) : String :=
  "- " ++ pad8 kv.1 ++ " : " ++ toString kv.2 ++ " files ("
    ++ toString (kv.2 * 100 / total) ++ "%)"

/-- The per-extension percentage lines generated on lines 147-150: one line
per `most_common()` entry.  When the counter is empty this list is empty and
no division is performed. -/
def pctLines (counter : List (String × Nat)) (total : Nat) : List String :=
  (mostCommon counter).map (pctLine total)

/-- The summary string built on lines 140-157. -/
def summaryText (identity : String) (counter : List (String × Nat))
    (total : Nat) : String :=
  "# =============================================\n# TSCODESCAN SUMMARY\n# =============================================\n\nIdentity:\n- "
    ++ identity ++ "\n\nLanguage Composition:\n"
    ++ String.intercalate "\n" (pctLines counter total)
    ++ "\n\nDocumentation Signals:\n- README.md\n- Instalasi\n- Penggunaan Dasar\n- Filosofi Desain\n- Lisensi"

/-- The assignment `idtag = None if args.i is True else args.i` (line 169). -/
def idtagOf : IOpt → Option String
  | .flag => none
  | .tag s => some s
  | .absent => none

/-- Split a character list at `'/'`. -/
def splitSlash : List Char → List String
  | [] => [""]
  | c :: rest =>
      match splitSlash rest with
      | [] => []
      | s :: ss => if c = '/' then "" :: s :: ss else (⟨[c]⟩ ++ s) :: ss

/-- Components `Path(root).parts` of the absolute root, up to the representation of the
leading separator (irrelevant to the only use, the `".git"` membership
test). -/
def splitParts (root : String) : List String := splitSlash root.data

/-- Function `main` (lines 126-170) as its observable effects, for a fixed parsed
command line: `home` is `Path.home()`, `root` the already-absolute positional
path, `t` the filesystem under it, `i` the `-i` option, `r` the `-r` flag,
`now` the timestamp string.  If `args.i` is falsy the four `print` calls of
lines 162-165 happen and the program returns; otherwise the collector runs
and `write_artifact` is invoked with `idtag = None if args.i is True else
args.i`. -/
def mainRun (home root : String) (t : FSTree) (i : IOpt) (r : Bool)
    (now : String) : List Event :=
  let repo := basename root
  let tree := build_tree root t
  let ct := analyze_repo t
  let identity := infer_identity ct.1
  let summary := summaryText identity ct.1 ct.2
  let diagnose := diagnose_repo (splitParts root) t
  if iTruthy i = false then
    [Event.stdout tree, Event.stdout summary, Event.stdout "\nDIAGNOSE:",
     Event.stdout diagnose]
  else
    let files := collect_files t r
    write_artifact home repo tree summary diagnose files r (idtagOf i) now

/-- The summary string `main` computes for a tree (the locals `counter`,
`total`, `identity`, `summary` of lines 137-157). -/
def summaryOf (t : FSTree) : String :=
  summaryText (infer_identity (analyze_repo t).1) (analyze_repo t).1
    (analyze_repo t).2

/-- The diagnostics string `main` computes for a root and tree (line 159). -/
def diagnoseOf (root : String) (t : FSTree) : String :=
  diagnose_repo (splitParts root) t

/-- Outcome of running the write loop of `write_artifact` when only the first
`budget` calls to `o.write` succeed and the next one raises (for example on a
full disk): `open("w")` has already created/truncated the file at the final
output path, the successful writes have been appended to it, the `with` block
closes the handle and the exception propagates out of `main` (there is no
handler), so the process fails.  `ok` records whether every write succeeded
and `fileContent` is what is left on disk at the final output path. -/
structure WriteAttempt where
  ok : Bool
  fileContent : String
deriving DecidableEq, Repr

/-- The write loop under a failure budget: all writes succeed iff
`chunks.length ≤ budget`; otherwise the file keeps the first `budget`
chunks. -/
def attemptWrite (chunks : List String) (budget : Nat) : WriteAttempt :=
  if chunks.length ≤ budget then ⟨true, concatAll chunks⟩
  else ⟨false, concatAll (chunks.take budget)⟩

/-! ### Specification-side definitions (worded from `spec.md`, for the
refinement claims) -/

mutual
/-- Modelled from the spec (§8, first property): the set of directories in a
tree minus any whose name is in the IgnoreSet, applied transitively — a
directory whose own base name is ignored disappears together with all of its
descendants, with no exception for the root. -/
def specDirs (rel : List String) : FSTree → List (List String)
  | .node n _ subs => if n ∈ IGNORE_DIRS then [] else rel :: specDirsF rel subs
/-- Forest part of `specDirs`. -/
def specDirsF (rel : List String) : FSForest → List (List String)
  | .nil => []
  | .cons d rest => specDirs (rel ++ [d.name]) d ++ specDirsF rel rest
end

mutual
/-- Modelled from the spec (§8): the files reachable under the root after
pruning IgnoreSet directories, each with the relative path of its
directory. -/
def reachFilesP (rel : List String) : FSTree → List (List String × FileE)
  | .node _ fs subs => fs.map (fun fe => (rel, fe)) ++ reachFilesPF rel subs
/-- Forest part of `reachFilesP`. -/
def reachFilesPF (rel : List String) : FSForest → List (List String × FileE)
  | .nil => []
  | .cons d rest =>
      (if d.name ∈ IGNORE_DIRS then [] else reachFilesP (rel ++ [d.name]) d)
        ++ reachFilesPF rel rest
end

mutual
/-- Modelled from the claim for C10: every regular file under a directory,
with NO IgnoreSet pruning, as (full path components, size). -/
def filesUnder (pre : List String) : FSTree → List (List String × Nat)
  | .node _ fs subs =>
      fs.map (fun fe => (pre ++ [fe.name], fe.size)) ++ filesUnderF pre subs
/-- Forest part of `filesUnder`. -/
def filesUnderF (pre : List String) : FSForest → List (List String × Nat)
  | .nil => []
  | .cons d rest => filesUnder (pre ++ [d.name]) d ++ filesUnderF pre rest
end

/-- Modelled from the claim for C10: the total size of all regular files
under the root whose path does not contain `".git"` as a component, with no
IgnoreSet pruning. -/
def specSize (rootParts : List String) (t : FSTree) : Nat :=
  (((filesUnder rootParts t).filter (fun p => decide (".git" ∉ p.1))).map
    Prod.snd).sum

/-- Sum of the counts stored in a `Counter`. -/
def sumVals (c : List (String × Nat)) : Nat := (c.map Prod.snd).sum

/-! ### Concrete example trees used in witnesses and counterexamples -/

/-- A repository `demo` holding a single `x.py`. -/
def demoT : FSTree := .node "demo" [⟨"x.py", 7, "print(1)"⟩] .nil

/-- A scan root whose own base name is `.git` (a name in `IGNORE_DIRS`). -/
def gitRootT : FSTree := .node ".git" [] .nil

/-- An ordinary root holding a `.git` subdirectory. -/
def projT : FSTree := .node "proj" [] (.cons (.node ".git" [] .nil) .nil)

/-- A root with one source file and a `.venv` directory holding a text
file. -/
def venvT : FSTree :=
  .node "proj" [⟨"a.py", 2, "A"⟩]
    (.cons (.node ".venv" [⟨"data.txt", 3, "D"⟩] .nil) .nil)

/-- A root path `/r` whose depth-1 subdirectory is also named `r`, so the
root string reoccurs inside the visited path `/r/r`. -/
def depthT : FSTree := .node "r" [] (.cons (.node "r" [⟨"a.txt", 1, ""⟩] .nil) .nil)

/-- A root with no files at all. -/
def emptyT : FSTree := .node "empty" [] .nil

/-! ### Helper lemmas -/

mutual
/-- The directories visited by the pruned walk are exactly the
spec-side kept directories, provided the root's own name is not ignored. -/
theorem walkTree_dirs (rel : List String) (t : FSTree)
    (h : t.name ∉ IGNORE_DIRS) :
    (walkTree rel t).map Prod.fst = specDirs rel t := by
  cases t with
  | node n fs subs =>
    simp only [FSTree.name] at h
    simp [walkTree, specDirs, h, walkForest_dirs]
/-- Forest part of `walkTree_dirs`; below the root no side condition is
needed, both sides drop an ignored child with its subtree. -/
theorem walkForest_dirs (rel : List String) (f : FSForest) :
    (walkForest rel f).map Prod.fst = specDirsF rel f := by
  cases f with
  | nil => simp [walkForest, specDirsF]
  | cons d rest =>
    cases d with
    | node n fs subs =>
      by_cases h : n ∈ IGNORE_DIRS
      · simp [walkForest, specDirsF, specDirs, FSTree.name, h, walkForest_dirs]
      · have ht : (FSTree.node n fs subs).name ∉ IGNORE_DIRS := by
          simpa [FSTree.name] using h
        simp [walkForest, specDirsF, FSTree.name, h, walkForest_dirs,
          walkTree_dirs _ _ ht]
end

mutual
/-- The (path, file) pairs seen by the pruned walk are exactly the spec-side
reachable files. -/
theorem walkTree_files (rel : List String) (t : FSTree) :
    (walkTree rel t).flatMap
        (fun pr => pr.2.files.map (fun fe => (pr.1, fe)))
      = reachFilesP rel t := by
  cases t with
  | node n fs subs =>
    simp only [walkTree, List.flatMap_cons, walkForest_files, reachFilesP]
    rfl
/-- Forest part of `walkTree_files`. -/
theorem walkForest_files (rel : List String) (f : FSForest) :
    (walkForest rel f).flatMap
        (fun pr => pr.2.files.map (fun fe => (pr.1, fe)))
      = reachFilesPF rel f := by
  cases f with
  | nil => simp [walkForest, reachFilesPF]
  | cons d rest =>
    by_cases h : d.name ∈ IGNORE_DIRS
    · simp [walkForest, reachFilesPF, h, walkForest_files]
    · simp [walkForest, reachFilesPF, h, walkForest_files, walkTree_files]
end

/-- Folding the per-directory file loops equals folding over the
concatenation of all visited files. -/
theorem foldl_files_flat {α : Type} (step : α → FileE → α)
    (l : List (List String × FSTree)) (acc : α) :
    l.foldl (fun a pr => pr.2.files.foldl step a) acc
      = (l.flatMap (fun pr => pr.2.files)).foldl step acc := by
  induction l generalizing acc with
  | nil => rfl
  | cons pr rest ih => simp [List.foldl_append, ih]

/-- The flat file list of the pruned walk, forgetting paths, is the spec-side
reachable file list, forgetting paths. -/
theorem walk_flat_files (t : FSTree) :
    (walkTree [] t).flatMap (fun pr => pr.2.files)
      = (reachFilesP [] t).map Prod.snd := by
  rw [← walkTree_files [] t]
  rw [List.map_flatMap]
  simp [List.map_map, Function.comp_def]

/-- Updating with `bump` adds exactly one to the stored total. -/
theorem bump_sumVals (c : List (String × Nat)) (k : String) :
    sumVals (bump c k) = sumVals c + 1 := by
  induction c with
  | nil => simp [bump, sumVals]
  | cons kv rest ih =>
    cases kv with
    | mk k' v =>
      simp only [bump, sumVals, List.map_cons, List.sum_cons] at *
      by_cases h : k' = k
      · simp [h]; omega
      · simp [h, ih]; omega

/-- Updating with `bump` keeps every stored count positive. -/
theorem bump_pos (c : List (String × Nat)) (k : String)
    (h : ∀ kv ∈ c, 1 ≤ kv.2) : ∀ kv ∈ bump c k, 1 ≤ kv.2 := by
  induction c with
  | nil => simp [bump]
  | cons kv rest ih =>
    cases kv with
    | mk k' v =>
      by_cases hk : k' = k
      · intro kv hkv
        simp only [bump, hk, if_pos rfl] at hkv
        rcases List.mem_cons.1 hkv with h1 | h1
        · subst h1; omega
        · exact h _ (List.mem_cons_of_mem _ h1)
      · intro kv hkv
        simp only [bump, hk, if_neg, ite_false] at hkv
        rcases List.mem_cons.1 hkv with h1 | h1
        · subst h1; exact h _ (List.mem_cons_self _ _)
        · exact ih (fun kv hkv => h _ (List.mem_cons_of_mem _ hkv)) _ h1

/-- The tally loop adds the number of processed files to the running
total. -/
theorem tally_total (fs : List FileE) (c : List (String × Nat)) (tot : Nat) :
    (fs.foldl tallyStep (c, tot)).2 = tot + fs.length := by
  induction fs generalizing c tot with
  | nil => simp
  | cons fe rest ih => simp [tallyStep, ih]; omega

/-- The tally loop adds the number of processed files to the sum of the
stored counts. -/
theorem tally_sumVals (fs : List FileE) (c : List (String × Nat)) (tot : Nat) :
    sumVals (fs.foldl tallyStep (c, tot)).1 = sumVals c + fs.length := by
  induction fs generalizing c tot with
  | nil => simp
  | cons fe rest ih => simp [tallyStep, ih, bump_sumVals]; omega

/-- The tally loop keeps every stored count positive. -/
theorem tally_pos (fs : List FileE) (c : List (String × Nat)) (tot : Nat)
    (h : ∀ kv ∈ c, 1 ≤ kv.2) :
    ∀ kv ∈ (fs.foldl tallyStep (c, tot)).1, 1 ≤ kv.2 := by
  induction fs generalizing c tot with
  | nil => simpa using h
  | cons fe rest ih => exact ih _ _ (bump_pos _ _ h)

/-- Rewriting `analyze_repo` as a single fold over the reachable files. -/
theorem analyze_repo_eq (t : FSTree) :
    analyze_repo t
      = ((reachFilesP [] t).map Prod.snd).foldl tallyStep ([], 0) := by
  rw [analyze_repo, foldl_files_flat, walk_flat_files]

/-- A nested `filterMap` over the files of the walk equals a `filterMap` over
the flattened (path, file) pairs. -/
theorem flatMap_filterMap_files {β : Type}
    (g : List String → FileE → Option β) (l : List (List String × FSTree)) :
    l.flatMap (fun pr => pr.2.files.filterMap (g pr.1))
      = (l.flatMap (fun pr => pr.2.files.map (fun fe => (pr.1, fe)))).filterMap
          (fun pf => g pf.1 pf.2) := by
  induction l with
  | nil => rfl
  | cons pr rest ih =>
    simp [List.filterMap_append, ih, List.filterMap_map, Function.comp_def]

/-- Rewriting `collect_files` as a `filterMap` over the spec-side reachable files. -/
theorem collect_files_eq (t : FSTree) (raw : Bool) :
    collect_files t raw
      = (reachFilesP [] t).filterMap (fun pf => collectStep raw pf.1 pf.2) := by
  rw [collect_files, flatMap_filterMap_files, walkTree_files]

/-- Summing entry sizes by `foldl` is summing the mapped sizes. -/
theorem foldl_size_sum (l : List FSEntry) (n : Nat) :
    l.foldl (fun a e => a + e.size) n = n + (l.map FSEntry.size).sum := by
  induction l generalizing n with
  | nil => simp
  | cons e rest ih => simp [ih]; omega

mutual
/-- The sizes of the non-`.git` regular files seen by `rglob` are the sizes
of the spec-side unpruned file list, filtered the same way. -/
theorem rglobT_sizes (pre : List String) (t : FSTree) :
    (((rglobT pre t).filter
        (fun e => e.isFile && decide (".git" ∉ e.parts))).map FSEntry.size)
      = (((filesUnder pre t).filter (fun p => decide (".git" ∉ p.1))).map
          Prod.snd) := by
  cases t with
  | node n fs subs =>
    simp only [rglobT, filesUnder, List.filter_append, List.map_append,
      rglobF_sizes]
    congr 1
    simp [List.filter_map, List.map_map, Function.comp_def]
/-- Forest part of `rglobT_sizes`: directory entries are discarded by the
`is_file` test. -/
theorem rglobF_sizes (pre : List String) (f : FSForest) :
    (((rglobF pre f).filter
        (fun e => e.isFile && decide (".git" ∉ e.parts))).map FSEntry.size)
      = (((filesUnderF pre f).filter (fun p => decide (".git" ∉ p.1))).map
          Prod.snd) := by
  cases f with
  | nil => simp [rglobF, filesUnderF]
  | cons d rest =>
    have hhead : (((⟨pre ++ [d.name], false, 0⟩ : FSEntry)).isFile
        && decide (".git" ∉ ((⟨pre ++ [d.name], false, 0⟩ : FSEntry)).parts))
        = false := rfl
    simp only [rglobF, filesUnderF, List.filter_cons, hhead,
      Bool.false_eq_true, ite_false, List.filter_append, List.map_append]
    rw [rglobT_sizes, rglobF_sizes]
end

/-- Concatenation of writes distributes over list append. -/
theorem concatAll_append (l m : List String) :
    concatAll (l ++ m) = concatAll l ++ concatAll m := by
  induction l with
  | nil => simp [concatAll]
  | cons s rest ih => simp [concatAll, ih, String.append_assoc]

/-- The counter's stored counts sum to the returned total, and the total is
the number of reachable files. -/
theorem analyze_sumVals_total (t : FSTree) :
    sumVals (analyze_repo t).1 = (analyze_repo t).2
      ∧ (analyze_repo t).2 = (reachFilesP [] t).length := by
  have hs := tally_sumVals ((reachFilesP [] t).map Prod.snd) [] 0
  have ht := tally_total ((reachFilesP [] t).map Prod.snd) [] 0
  rw [analyze_repo_eq]
  constructor
  · rw [hs, ht]; simp [sumVals]
  · rw [ht]; simp

/-- Every count stored by `analyze_repo` is positive. -/
theorem analyze_pos (t : FSTree) :
    ∀ kv ∈ (analyze_repo t).1, 1 ≤ kv.2 := by
  rw [analyze_repo_eq]
  exact tally_pos _ _ _ (by simp)

/-- The diagnostics size equals the spec-side unpruned `.git`-filtered
sum. -/
theorem diag_size_eq (rootParts : List String) (t : FSTree) :
    diag_size rootParts t = specSize rootParts t := by
  rw [diag_size, foldl_size_sum, rglobT_sizes, specSize]
  simp

/-! ### Claims -/

/-- C1, counterexample to the claim as stated: when the scan root's own base
name is in `IgnoreSet` (here a root directory named `.git`), the walker still
lists the root, while the claimed set — all directories minus those with an
ignored name, applied transitively — is empty.  The two sets differ. -/
theorem C1_counterexample :
    gitRootT.name ∈ IGNORE_DIRS
      ∧ (walkTree [] gitRootT).map Prod.fst = [[]]
      ∧ specDirs [] gitRootT = [] := by
  refine ⟨by decide, by decide, by decide⟩

/-- C1 (amended): provided the root's own base name is not in `IgnoreSet`,
the directories visited by the tree walker (one listing line each) are
exactly the directories of the tree minus every directory whose base name is
in `IgnoreSet`, applied transitively — a pruned directory and all its
descendants never appear.  The root itself is never name-checked. -/
theorem C1_tree_dirs (t : FSTree) (h : t.name ∉ IGNORE_DIRS) :
    (walkTree [] t).map Prod.fst = specDirs [] t :=
  walkTree_dirs [] t h

/-- C1 witness: the amended theorem applied to a concrete tree whose `.git`
subdirectory is pruned. -/
theorem C1_witness :
    projT.name ∉ IGNORE_DIRS
      ∧ (walkTree [] projT).map Prod.fst = specDirs [] projT :=
  ⟨by decide, C1_tree_dirs projT (by decide)⟩

/-- C2: the sum of the values in the `FileCounts` mapping equals the returned
total, and the total is the number of files reachable under the root after
pruning `IgnoreSet` directories. -/
theorem C2_counts (t : FSTree) :
    sumVals (analyze_repo t).1 = (analyze_repo t).2
      ∧ (analyze_repo t).2 = (reachFilesP [] t).length :=
  analyze_sumVals_total t

/-- C3: in standard mode the collected paths are exactly the reachable files
whose lower-cased extension is in the allow-list and not in the deny-list; in
raw mode they are all reachable files minus deny-listed extensions; and in
either mode no collected file has a deny-listed extension. -/
theorem C3_collect (t : FSTree) :
    ((collect_files t false).map (fun c => c.dir ++ [c.fname])
        = (reachFilesP [] t).filterMap (fun pf =>
            if sufLower pf.2.name ∈ SOURCE_EXTS ∧ sufLower pf.2.name ∉ BINARY_EXTS
            then some (pf.1 ++ [pf.2.name]) else none))
      ∧ ((collect_files t true).map (fun c => c.dir ++ [c.fname])
          = (reachFilesP [] t).filterMap (fun pf =>
              if sufLower pf.2.name ∉ BINARY_EXTS
              then some (pf.1 ++ [pf.2.name]) else none))
      ∧ (∀ (raw : Bool), ∀ c ∈ collect_files t raw,
          sufLower c.fname ∉ BINARY_EXTS) := by
  refine ⟨?_, ?_, ?_⟩
  · rw [collect_files_eq, List.map_filterMap]
    congr 1
    funext pf
    by_cases h1 : sufLower pf.2.name ∈ BINARY_EXTS <;>
      by_cases h2 : sufLower pf.2.name ∈ SOURCE_EXTS <;>
        simp [collectStep, h1, h2]
  · rw [collect_files_eq, List.map_filterMap]
    congr 1
    funext pf
    by_cases h1 : sufLower pf.2.name ∈ BINARY_EXTS <;>
      simp [collectStep, h1]
  · intro raw c hc
    rw [collect_files_eq] at hc
    rcases List.mem_filterMap.1 hc with ⟨pf, _, hstep⟩
    by_cases h1 : sufLower pf.2.name ∈ BINARY_EXTS
    · simp [collectStep, h1] at hstep
    · by_cases h2 : raw = false ∧ sufLower pf.2.name ∉ SOURCE_EXTS
      · simp [collectStep, h1, h2] at hstep
      · have : c = ⟨pf.1, pf.2.name, pf.2.content⟩ := by
          simpa [collectStep, h1, h2] using hstep.symm
        rw [this]
        exact h1

/-- C3 witness: a concrete collected file, produced in standard mode, whose
extension is outside the deny-list. -/
theorem C3_witness :
    (⟨[], "x.py", "print(1)"⟩ : CollectedFile) ∈ collect_files demoT false
      ∧ sufLower (CollectedFile.fname ⟨[], "x.py", "print(1)"⟩) ∉ BINARY_EXTS :=
  ⟨by decide, (C3_collect demoT).2.2 false ⟨[], "x.py", "print(1)"⟩ (by decide)⟩

/-- C4, counterexample to the claim as stated: the artifact option supplied
WITH a tag value — the empty string (`-i ""`) — produces no file write at
all, because `if not args.i` treats the empty string as falsy; the claim says
any supplied tag value triggers the Collector and Artifact Writer. -/
theorem C4_counterexample :
    ((mainRun "/h" "/w/demo" demoT (IOpt.tag "") false "T").all
        (fun e => !e.isWrite)) = true := by decide

/-- C4 (amended): with the artifact option absent the program prints the
tree, summary, and diagnostics to standard output and writes no file; with
the option supplied bare or with a NON-EMPTY tag value it instead writes the
artifact and prints the one-line confirmation naming the output path (an
empty-string tag behaves as if the option were absent). -/
theorem C4_modes (home root : String) (t : FSTree) (i : IOpt) (r : Bool)
    (now : String) :
    (i = IOpt.absent →
      mainRun home root t i r now
          = [Event.stdout (build_tree root t), Event.stdout (summaryOf t),
             Event.stdout "\nDIAGNOSE:", Event.stdout (diagnoseOf root t)]
        ∧ ((mainRun home root t i r now).all (fun e => !e.isWrite)) = true)
      ∧ ((i = IOpt.flag ∨ ∃ s, i = IOpt.tag s ∧ s ≠ "") →
        mainRun home root t i r now
          = [Event.fileWrite (artifactPath home (basename root) r (idtagOf i))
               (concatAll (artifactChunks (basename root) r now
                 (build_tree root t) (summaryOf t) (diagnoseOf root t)
                 (collect_files t r))),
             Event.stdout ("[OK] Artifact created: "
               ++ artifactPath home (basename root) r (idtagOf i))]) := by
  constructor
  · intro h
    subst h
    constructor
    · simp [mainRun, iTruthy, summaryOf, diagnoseOf]
    · simp [mainRun, iTruthy, Event.isWrite]
  · intro h
    rcases h with h | ⟨s, hs, hne⟩
    · subst h
      simp [mainRun, iTruthy, write_artifact, summaryOf, diagnoseOf]
    · subst hs
      simp [mainRun, iTruthy, hne, write_artifact, summaryOf, diagnoseOf]

/-- C4 witness: the two amended modes at concrete inputs — terminal-only for
an absent option, artifact write plus confirmation for the bare flag. -/
theorem C4_witness :
    mainRun "/h" "/w/demo" demoT IOpt.absent false "T"
        = [Event.stdout (build_tree "/w/demo" demoT),
           Event.stdout (summaryOf demoT), Event.stdout "\nDIAGNOSE:",
           Event.stdout (diagnoseOf "/w/demo" demoT)]
      ∧ mainRun "/h" "/w/demo" demoT IOpt.flag false "T"
        = [Event.fileWrite
             (artifactPath "/h" (basename "/w/demo") false (idtagOf IOpt.flag))
             (concatAll (artifactChunks (basename "/w/demo") false "T"
               (build_tree "/w/demo" demoT) (summaryOf demoT)
               (diagnoseOf "/w/demo" demoT) (collect_files demoT false))),
           Event.stdout ("[OK] Artifact created: "
             ++ artifactPath "/h" (basename "/w/demo") false (idtagOf IOpt.flag))] :=
  ⟨((C4_modes "/h" "/w/demo" demoT IOpt.absent false "T").1 rfl).1,
   (C4_modes "/h" "/w/demo" demoT IOpt.flag false "T").2 (Or.inl rfl)⟩

/-- C5: every file the program writes goes to
`<home>/storage/downloads/Scan/<repo>/` with the file name built as `"scan"`,
then `"-raw"` if raw mode, then `"-<tag>"` if a tag was supplied, then
`"-<repo>.txt"`; and the untagged, non-raw name for repository `demo` is
`scan-demo.txt`. -/
theorem C5_artifact_path :
    (∀ (home root : String) (t : FSTree) (i : IOpt) (r : Bool)
        (now path content : String),
        Event.fileWrite path content ∈ mainRun home root t i r now →
        path = home ++ "/storage/downloads/Scan/" ++ basename root ++ "/"
          ++ ("scan" ++ (if r then "-raw" else "")
              ++ (match i with | IOpt.tag s => "-" ++ s | _ => "")
              ++ "-" ++ basename root ++ ".txt"))
      ∧ artifactName false none "demo" = "scan-demo.txt" := by
  constructor
  · intro home root t i r now path content h
    simp only [mainRun] at h
    split at h
    · simp at h
    · next hcond =>
      simp only [write_artifact, List.mem_cons, List.mem_singleton] at h
      rcases h with h | h
      · injection h with hp hc
        subst hp
        cases i with
        | absent => simp [iTruthy] at hcond
        | flag => cases r <;> simp [artifactPath, artifactName, idtagOf]
        | tag s =>
          by_cases hs : s = ""
          · subst hs; simp [iTruthy] at hcond
          · cases r <;>
              simp [artifactPath, artifactName, idtagOf, hs, ← String.append_assoc]
      · rcases h with h | h
        · exact absurd h (by simp)
        · simp at h
  · decide

set_option maxRecDepth 4096 in
/-- C5 witness: the path equation instantiated by the artifact-mode `demo`
run, whose single write lands at `.../Scan/demo/scan-demo.txt`. -/
theorem C5_witness :
    "/h/storage/downloads/Scan/demo/scan-demo.txt"
      = "/h" ++ "/storage/downloads/Scan/" ++ basename "/w/demo" ++ "/"
        ++ ("scan" ++ (if false then "-raw" else "")
            ++ (match IOpt.flag with | IOpt.tag s => "-" ++ s | _ => "")
            ++ "-" ++ basename "/w/demo" ++ ".txt") :=
  C5_artifact_path.1 "/h" "/w/demo" demoT IOpt.flag false "T"
    "/h/storage/downloads/Scan/demo/scan-demo.txt"
    (concatAll (artifactChunks (basename "/w/demo") false "T"
      (build_tree "/w/demo" demoT) (summaryOf demoT)
      (diagnoseOf "/w/demo" demoT) (collect_files demoT false)))
    (by decide)

/-- C6: the `FileCounts` mapping is empty exactly when the returned total is
zero, so the per-extension percentage lines — the only place `total` is a
divisor — are generated zero times and no division by zero is performed. -/
theorem C6_empty_guard (t : FSTree) :
    ((analyze_repo t).2 = 0 ↔ (analyze_repo t).1 = [])
      ∧ ((analyze_repo t).2 = 0 →
          pctLines (analyze_repo t).1 (analyze_repo t).2 = []) := by
  have hs := (analyze_sumVals_total t).1
  have hpos := analyze_pos t
  have hmp : (analyze_repo t).2 = 0 → (analyze_repo t).1 = [] := by
    intro h0
    rw [h0] at hs
    cases hc : (analyze_repo t).1 with
    | nil => rfl
    | cons kv rest =>
      exfalso
      have h1 := hpos kv (by rw [hc]; exact List.mem_cons_self _ _)
      rw [hc] at hs
      simp [sumVals] at hs
      omega
  refine ⟨⟨hmp, ?_⟩, ?_⟩
  · intro h
    rw [← hs, h]
    simp [sumVals]
  · intro h0
    rw [hmp h0]
    rfl

/-- C6 witness: on an empty tree the total is zero and no percentage line is
generated. -/
theorem C6_witness :
    (analyze_repo emptyT).2 = 0
      ∧ pctLines (analyze_repo emptyT).1 (analyze_repo emptyT).2 = [] :=
  ⟨by decide, (C6_empty_guard emptyT).2 (by decide)⟩

/-- C7: the indentation is NOT two spaces per depth level in general.  For
root path `/r` with a depth-1 subdirectory also named `r`, the walk visits
the subdirectory at depth 1 (second conjunct), yet its listing line `"r/"`
and its file line carry the indentation of depth 0, because
`base.replace(root, "")` removes every occurrence of the root string from
`/r/r`, leaving the empty string, whose separator count is 0.  The claim
requires `"  r/"` and `"    a.txt"`. -/
theorem C7_level_bug :
    (walkTree [] depthT).map Prod.fst = [[], ["r"]]
      ∧ buildTreeLines "/r" depthT = ["r/", "r/", "  a.txt"]
      ∧ countSep (pyReplace (pathStr "/r" ["r"]) "/r" "") = 0 := by
  refine ⟨by decide, by decide, by decide⟩

/-- C8: the human-size formatter maps the four specified byte counts to the
specified strings, and whenever the value is not below 1024 it steps to the
next unit with the value divided by 1024 (held exactly as a shifted
numerator). -/
theorem C8_human_size :
    human_size 0 = "0.0 B" ∧ human_size 1024 = "1.0 KB"
      ∧ human_size 1536 = "1.5 KB" ∧ human_size 1048576 = "1.0 MB"
      ∧ (∀ n : Nat, ¬ n < 1024 →
          human_size n = humanGo ⟨n, 1⟩ ["KB", "MB", "GB"]) := by
  refine ⟨by decide, by decide, by decide, by decide, ?_⟩
  intro n h
  have hlt : QVal.lt1024 ⟨n, 0⟩ = false := by
    simp [QVal.lt1024]
    omega
  simp [human_size, humanGo, hlt, QVal.div1024]

/-- C8 witness: the unit-stepping clause at 2048 bytes. -/
theorem C8_witness :
    ¬ (2048 : Nat) < 1024
      ∧ human_size 2048 = humanGo ⟨2048, 1⟩ ["KB", "MB", "GB"] :=
  ⟨by decide, C8_human_size.2.2.2.2 2048 (by decide)⟩

/-- C9, counterexample to the claim as stated: the writer opens the final
output path directly and writes sequentially, so when the second write
raises, the process fails (first conjunct) but a non-empty (second conjunct),
incomplete (third conjunct) file remains at the final output path — the claim
says no partially-written file is left. -/
theorem C9_counterexample :
    (attemptWrite (artifactChunks "demo" false "T" "tree" "sum" "diag" []) 1).ok
        = false
      ∧ (attemptWrite (artifactChunks "demo" false "T" "tree" "sum" "diag" []) 1).fileContent
        ≠ ""
      ∧ (attemptWrite (artifactChunks "demo" false "T" "tree" "sum" "diag" []) 1).fileContent
        ≠ concatAll (artifactChunks "demo" false "T" "tree" "sum" "diag" []) := by
  refine ⟨by decide, by decide, by decide⟩

/-- C9 (amended): if a write to the destination fails partway, the process
does fail, but the final output path is left holding exactly the
already-written chunks — a prefix of the full artifact — rather than being
cleaned up. -/
theorem C9_failed_write (repo : String) (raw : Bool)
    (now tree summary diagnose : String) (files : List CollectedFile)
    (budget : Nat)
    (h : budget < (artifactChunks repo raw now tree summary diagnose files).length) :
    (attemptWrite (artifactChunks repo raw now tree summary diagnose files)
        budget).ok = false
      ∧ (attemptWrite (artifactChunks repo raw now tree summary diagnose files)
          budget).fileContent
        = concatAll ((artifactChunks repo raw now tree summary diagnose files).take budget)
      ∧ ∃ rest,
          concatAll (artifactChunks repo raw now tree summary diagnose files)
            = (attemptWrite (artifactChunks repo raw now tree summary diagnose files)
                budget).fileContent ++ rest := by
  rw [attemptWrite, if_neg (by omega)]
  refine ⟨rfl, rfl, ⟨concatAll ((artifactChunks repo raw now tree summary diagnose files).drop budget), ?_⟩⟩
  rw [← concatAll_append, List.take_append_drop]

/-- C9 witness: the amended statement at a concrete failing write. -/
theorem C9_witness :
    1 < (artifactChunks "d" true "N" "t" "s" "g" []).length
      ∧ (attemptWrite (artifactChunks "d" true "N" "t" "s" "g" []) 1).ok = false :=
  ⟨by decide, (C9_failed_write "d" true "N" "t" "s" "g" [] 1 (by decide)).1⟩

/-- C10: the diagnostics size sums the sizes of all regular files under the
root whose full path has no `.git` component, with NO `IgnoreSet` pruning;
concretely, for a root with `a.py` (2 bytes) and `.venv/data.txt` (3 bytes)
the reported size is 5 even though the classifier counts one file, the
collector (raw mode) returns only `a.py`, and the tree walk visits only the
root. -/
theorem C10_diag_size :
    (∀ (rootParts : List String) (t : FSTree),
        diag_size rootParts t = specSize rootParts t)
      ∧ diag_size ["", "h", "proj"] venvT = 5
      ∧ (analyze_repo venvT).2 = 1
      ∧ (collect_files venvT true).map (fun c => c.dir ++ [c.fname]) = [["a.py"]]
      ∧ (walkTree [] venvT).map Prod.fst = [[]] := by
  refine ⟨diag_size_eq, by decide, by decide, by decide, by decide⟩

end DirScan
